import Mathlib

/-!
Shallow embedding of `src/seed_phrase.rs` (Stellar SEP-5 style key
derivation from a BIP-39 seed phrase).  The repository's own code is the
`SeedPhrase` / `KeyPair` orchestration; the bip39 codec, the slip10
deriver and the strkey encoder are external crates the module treats as
black boxes, so the embedding is parametrized over any implementation of
their documented contracts (an `Externals` value).  Bytes are `Nat`,
fixed-width Rust arrays are `List Nat` whose length is tracked by
contract, Rust `Result` is `Except`, and a Rust panic (`unwrap`) is the
`none` branch of an `Option`.
-/

namespace Sep5

abbrev Byte := Nat

/-- slip10::Curve.  The single supported variant, as in the source and in
§3 of the design ("enum{Ed25519 (only supported value)}"). -/
inductive Curve where
  | Ed25519
deriving DecidableEq, Repr

/-- slip10::BIP32Path: the parsed form of a derivation path.  Its
components are opaque to this module; only the external parser builds
values of it. -/
structure BIP32Path where
  components : List Nat
deriving DecidableEq, Repr

/-- slip10::Key: the raw derived key material.  `key` is the 32-byte
private scalar field of the Rust struct; `public_key` stands for the
deriver's `public_key()` representation, 33 bytes (a 1-byte prefix then
the 32-byte key) per the deriver contract of §6. -/
structure Slip10Key where
  key : List Byte
  public_key : List Byte
deriving DecidableEq, Repr

/-- bip39::Mnemonic: per the codec contract it validates a phrase and
holds the exact phrase string it was given; `phrase` is its `phrase()`
accessor. -/
structure Mnemonic where
  phrase : String
deriving DecidableEq, Repr

/-- bip39::MnemonicType: the supported word-count classes. -/
inductive MnemonicType where
  | Words12
  | Words15
  | Words18
  | Words21
  | Words24
deriving DecidableEq, Repr

/-- The external collaborators (bip39 codec, slip10 deriver) of §6,
treated as black boxes: every theorem below is quantified over an
arbitrary implementation. -/
structure Externals where
  /-- bip39 phrase validation: `true` iff the string is a valid
  checksummed English mnemonic. -/
  validPhrase : String → Bool
  /-- bip39::Mnemonic::from_entropy composed with `phrase()`: the phrase
  encoded from entropy bytes, `none` iff the entropy length is
  unsupported. -/
  phraseFromEntropy : List Byte → Option String
  /-- bip39::Mnemonic::new composed with `phrase()`: a fresh mnemonic of
  the requested word-count class. -/
  randomPhrase : MnemonicType → String
  /-- bip39::Seed::new: the 64-byte seed derived from a phrase and a
  passphrase. -/
  seedNew : String → String → List Byte
  /-- slip10::BIP32Path::from_str: parse the standard path grammar,
  `none` on a malformed path string. -/
  pathFromStr : String → Option BIP32Path
  /-- slip10::derive_key_from_path: `none` when the deriver rejects the
  path. -/
  deriveKeyFromPath : List Byte → Curve → BIP32Path → Option Slip10Key

/-- bip39::Mnemonic::from_phrase, from the codec contract of §6: it
validates the given string against the wordlist and checksum and, on
success, stores that exact string. -/
def Externals.mnemonicFromPhrase (E : Externals) (s : String) : Option Mnemonic :=
  if E.validPhrase s then some ⟨s⟩ else none

/-- Modelled from the spec: `crate::error::Error` (the file
`src/error.rs` is not part of the staged sources).  The error taxonomy
of §7: `InvalidEntropy`, `InvalidPhrase`, and `InvalidIndex{path}`
carrying the fully assembled path string. -/
inductive Error where
  | invalidEntropy
  | invalidPhrase
  | invalidIndex (path : String)
deriving DecidableEq, Repr

/-- KeyPair: the tuple struct `KeyPair(slip10::Key)`; `raw` is its `.0`
field. -/
structure KeyPair where
  raw : Slip10Key
deriving DecidableEq, Repr

/-- stellar_strkey::ed25519::PublicKey: a tuple struct over the 32 raw
public-key bytes. -/
structure PublicKey where
  bytes : List Byte
deriving DecidableEq, Repr

/-- stellar_strkey::ed25519::PrivateKey: a tuple struct over the 32 raw
private-key bytes. -/
structure PrivateKey where
  bytes : List Byte
deriving DecidableEq, Repr

/-- KeyPair::public: `PublicKey(self.0.public_key()[1..].try_into().unwrap())`.
The slice drops the first byte; `try_into` to `[u8; 32]` succeeds iff 32
bytes remain, and the `unwrap` panic is the `none` branch. -/
def KeyPair.public (k : KeyPair) : Option PublicKey :=
  if (k.raw.public_key.drop 1).length = 32 then
    some ⟨k.raw.public_key.drop 1⟩
  else none

/-- KeyPair::private (named `privateKey` because `private` is a reserved
word here): `PrivateKey(self.0.key)`, the raw scalar wrapped directly. -/
def KeyPair.privateKey (k : KeyPair) : PrivateKey :=
  ⟨k.raw.key⟩

/-- impl From<slip10::Key> for KeyPair. -/
def KeyPair.ofKey (value : Slip10Key) : KeyPair :=
  ⟨value⟩

/-- SeedPhrase: the curve selector and the owned, validated mnemonic. -/
structure SeedPhrase where
  curve : Curve
  seed_phrase : Mnemonic
deriving DecidableEq, Repr

/-- SeedPhrase::new_ed25519. -/
def SeedPhrase.new_ed25519 (seed_phrase : Mnemonic) : SeedPhrase :=
  ⟨Curve.Ed25519, seed_phrase⟩

/-- SeedPhrase::from_entropy: build the mnemonic from raw entropy; the
codec error (unsupported entropy length) maps to the `InvalidEntropy`
kind. -/
def SeedPhrase.from_entropy (E : Externals) (bytes : List Byte) : Except Error SeedPhrase :=
  match E.phraseFromEntropy bytes with
  | some p => .ok (SeedPhrase.new_ed25519 ⟨p⟩)
  | none => .error .invalidEntropy

/-- Rust `str::split_whitespace` on the underlying characters: the
maximal runs of non-whitespace characters, in order (runs of whitespace
separate words and never yield empty words). -/
def wsWords (cs : List Char) : List (List Char) :=
  (cs.splitOnP Char.isWhitespace).filter (fun w => !w.isEmpty)

/-- The normalization inside SeedPhrase::from_seed_phrase:
`s.split_whitespace().collect::<Vec<_>>().join(" ")` — collapse every
run of whitespace to one space and trim both ends. -/
def normalizeWhitespace (s : String) : String :=
  ⟨List.intercalate [' '] (wsWords s.data)⟩

/-- SeedPhrase::from_seed_phrase: normalize the text, then validate it
through the codec; a validation failure is the `InvalidPhrase` kind. -/
def SeedPhrase.from_seed_phrase (E : Externals) (text : String) : Except Error SeedPhrase :=
  let seed_phrase := normalizeWhitespace text
  match E.mnemonicFromPhrase seed_phrase with
  | some m => .ok (SeedPhrase.new_ed25519 m)
  | none => .error .invalidPhrase

/-- SeedPhrase::random: a fresh mnemonic of the requested class; the
source always returns `Ok`. -/
def SeedPhrase.random (E : Externals) (mtype : MnemonicType) : Except Error SeedPhrase :=
  .ok (SeedPhrase.new_ed25519 ⟨E.randomPhrase mtype⟩)

/-- SeedPhrase::phrase: read-only access to the stored phrase text. -/
def SeedPhrase.phrase (s : SeedPhrase) : String :=
  s.seed_phrase.phrase

/-- SeedPhrase::to_seed: `bip39::Seed::new(&self.seed_phrase,
passphrase.unwrap_or_default())` — a missing passphrase becomes the
empty string. -/
def SeedPhrase.to_seed (E : Externals) (s : SeedPhrase) (passphrase : Option String) : List Byte :=
  E.seedNew s.seed_phrase.phrase (passphrase.getD "")

/-- SeedPhrase::from_path_string: assemble `m/44'/148'{path}`, parse it,
derive the seed and invoke the deriver; both the parse failure and the
deriver's rejection surface as `InvalidIndex` carrying the assembled
path. -/
def SeedPhrase.from_path_string (E : Externals) (s : SeedPhrase) (path : String)
    (passphrase : Option String) : Except Error KeyPair :=
  let fullPath := "m/44'/148'" ++ path
  match E.pathFromStr fullPath with
  | none => .error (.invalidIndex fullPath)
  | some parsed =>
    match E.deriveKeyFromPath (SeedPhrase.to_seed E s passphrase) s.curve parsed with
    | none => .error (.invalidIndex fullPath)
    | some key => .ok (KeyPair.ofKey key)

/-- SeedPhrase::from_path_index: the suffix `/{num}'` — the index is
always rendered hardened. -/
def SeedPhrase.from_path_index (E : Externals) (s : SeedPhrase) (num : Nat)
    (passphrase : Option String) : Except Error KeyPair :=
  SeedPhrase.from_path_string E s ("/" ++ toString num ++ "'") passphrase

/-- SeedPhrase::empty_key: the key pair at the bare account root. -/
def SeedPhrase.empty_key (E : Externals) (s : SeedPhrase)
    (passphrase : Option String) : Except Error KeyPair :=
  SeedPhrase.from_path_string E s "" passphrase

/-- impl From<SeedPhrase> for bip39::Seed: `seed_phrase.to_seed(None)`. -/
def seedFromSeedPhrase (E : Externals) (s : SeedPhrase) : List Byte :=
  SeedPhrase.to_seed E s none

/-- impl FromStr for SeedPhrase: delegates to `from_seed_phrase`. -/
def SeedPhrase.from_str (E : Externals) (s : String) : Except Error SeedPhrase :=
  SeedPhrase.from_seed_phrase E s

/-- The phrase shape required by the §3 invariant, stated the way the
spec states it: the characters are some list of nonempty,
whitespace-free words joined by exactly one space — hence no leading or
trailing whitespace and no two adjacent spaces. -/
def WordShaped (s : String) : Prop :=
  ∃ ws : List (List Char), (∀ w ∈ ws, w ≠ [] ∧ ∀ c ∈ w, c.isWhitespace = false) ∧
    s.data = List.intercalate [' '] ws

/-- The §3 data invariant of SeedPhrase: the stored phrase is
checksum-valid for the configured wordlist, single-spaced with no
surrounding whitespace, and the curve selector is Ed25519. -/
def SeedPhraseInvariant (E : Externals) (s : SeedPhrase) : Prop :=
  E.validPhrase (SeedPhrase.phrase s) = true ∧
  WordShaped (SeedPhrase.phrase s) ∧
  s.curve = Curve.Ed25519

/-- A concrete implementation of the external collaborators, used to
instantiate contract hypotheses at concrete inputs. -/
def extTest : Externals where
  validPhrase := fun s => s == "abandon about"
  phraseFromEntropy := fun b => if b.length = 16 then some "abandon about" else none
  randomPhrase := fun _ => "abandon about"
  seedNew := fun _ _ => List.replicate 64 0
  pathFromStr := fun _ => some ⟨[0x8000002C, 0x80000094]⟩
  deriveKeyFromPath := fun _ _ _ => some ⟨List.replicate 32 0, List.replicate 33 0⟩

/-- C1: `empty_key(p)` is exactly `from_path_string("", p)`; the empty
suffix appends nothing to the fixed prefix, so the derivation runs at
exactly the path `m/44'/148'` with no trailing segment. -/
theorem empty_key_eq_account_root (E : Externals) (s : SeedPhrase) (pw : Option String) :
    SeedPhrase.empty_key E s pw = SeedPhrase.from_path_string E s "" pw ∧
    "m/44'/148'" ++ "" = "m/44'/148'" ∧
    SeedPhrase.empty_key E s pw =
      (match E.pathFromStr "m/44'/148'" with
       | none => .error (.invalidIndex "m/44'/148'")
       | some parsed =>
         match E.deriveKeyFromPath (SeedPhrase.to_seed E s pw) s.curve parsed with
         | none => .error (.invalidIndex "m/44'/148'")
         | some key => .ok (KeyPair.ofKey key)) :=
  ⟨rfl, rfl, rfl⟩

/-- C2: `from_path_index(n, p)` is exactly
`from_path_string("/{n}'", p)`, and that suffix always ends in the
hardening mark. -/
theorem from_path_index_eq_from_path_string (E : Externals) (s : SeedPhrase) (num : Nat)
    (pw : Option String) :
    SeedPhrase.from_path_index E s num pw =
      SeedPhrase.from_path_string E s ("/" ++ toString num ++ "'") pw ∧
    ("/" ++ toString num ++ "'").data.getLast? = some '\'' := by
  refine ⟨rfl, ?_⟩
  show (('/' :: (toString num).data) ++ ['\'']).getLast? = some '\''
  exact List.getLast?_concat _

/-- C3: `to_seed(None)` equals `to_seed(Some(""))`: the missing
passphrase is the empty string (`unwrap_or_default`). -/
theorem to_seed_none_eq_some_empty (E : Externals) (s : SeedPhrase) :
    SeedPhrase.to_seed E s none = SeedPhrase.to_seed E s (some "") :=
  rfl

/-- C4: `to_seed` and `from_path_string` are deterministic: two calls on
the same inputs yield the same seed bytes, and key pairs with identical
public and private key bytes. -/
theorem derivation_deterministic (E : Externals) (s : SeedPhrase) (p : String)
    (pw : Option String) :
    SeedPhrase.to_seed E s pw = SeedPhrase.to_seed E s pw ∧
    (∀ k₁ k₂ : KeyPair, SeedPhrase.from_path_string E s p pw = .ok k₁ →
      SeedPhrase.from_path_string E s p pw = .ok k₂ →
      KeyPair.public k₁ = KeyPair.public k₂ ∧
        (KeyPair.privateKey k₁).bytes = (KeyPair.privateKey k₂).bytes) := by
  refine ⟨rfl, ?_⟩
  intro k₁ k₂ h₁ h₂
  rw [h₁] at h₂
  injection h₂ with h
  subst h
  exact ⟨rfl, rfl⟩

/-- C6: `from_path_string` fails exactly when the assembled path string
fails to parse or the deriver rejects the parsed path; every error is
`InvalidIndex` carrying the fully assembled path `m/44'/148'{p}`, and
otherwise a key pair is returned. -/
theorem from_path_string_error_spec (E : Externals) (s : SeedPhrase) (p : String)
    (pw : Option String) :
    (SeedPhrase.from_path_string E s p pw = .error (.invalidIndex ("m/44'/148'" ++ p)) ↔
      (E.pathFromStr ("m/44'/148'" ++ p) = none ∨
        ∃ parsed, E.pathFromStr ("m/44'/148'" ++ p) = some parsed ∧
          E.deriveKeyFromPath (SeedPhrase.to_seed E s pw) s.curve parsed = none)) ∧
    (∀ e : Error, SeedPhrase.from_path_string E s p pw = .error e →
      e = .invalidIndex ("m/44'/148'" ++ p)) ∧
    (∀ parsed key, E.pathFromStr ("m/44'/148'" ++ p) = some parsed →
      E.deriveKeyFromPath (SeedPhrase.to_seed E s pw) s.curve parsed = some key →
      SeedPhrase.from_path_string E s p pw = .ok (KeyPair.ofKey key)) := by
  unfold SeedPhrase.from_path_string
  cases h1 : E.pathFromStr ("m/44'/148'" ++ p) with
  | none => simp [h1]
  | some parsed =>
    cases h2 : E.deriveKeyFromPath (SeedPhrase.to_seed E s pw) s.curve parsed with
    | none =>
      simp only [h1, h2]
      refine ⟨by simp [h2], by simp, ?_⟩
      intro q k hq hk
      cases hq
      rw [h2] at hk
      exact Option.noConfusion hk
    | some key =>
      simp only [h1, h2]
      refine ⟨by simp [h2], by simp, ?_⟩
      intro q k hq hk
      cases hq
      rw [h2] at hk
      cases hk
      rfl

/-- C7: under the deriver contract (33-byte public-key representation),
`public()` strips exactly the first byte, yields the remaining 32 bytes,
and the `unwrap` panic branch is unreachable. -/
theorem public_strips_prefix_byte (k : KeyPair) (h : k.raw.public_key.length = 33) :
    KeyPair.public k = some ⟨k.raw.public_key.drop 1⟩ ∧
    (k.raw.public_key.drop 1).length = 32 := by
  have hl : (k.raw.public_key.drop 1).length = 32 := by
    simp [List.length_drop, h]
  refine ⟨?_, hl⟩
  unfold KeyPair.public
  rw [if_pos hl]

/-- C7 witness: a key pair with a concrete 33-byte public-key
representation. -/
theorem public_strips_prefix_byte_witness :
    KeyPair.public ⟨⟨List.replicate 32 0, List.replicate 33 7⟩⟩ =
      some ⟨(List.replicate 33 (7 : Byte)).drop 1⟩ ∧
    ((List.replicate 33 (7 : Byte)).drop 1).length = 32 :=
  public_strips_prefix_byte ⟨⟨List.replicate 32 0, List.replicate 33 7⟩⟩ (by decide)

/-- C8: `private()` wraps the raw 32-byte scalar unchanged: the encoded
bytes are the derived key's scalar bytes, and under the deriver contract
they are exactly 32 bytes. -/
theorem private_key_is_raw_scalar (k : KeyPair) (h : k.raw.key.length = 32) :
    (KeyPair.privateKey k).bytes = k.raw.key ∧
    (KeyPair.privateKey k).bytes.length = 32 :=
  ⟨rfl, h⟩

/-- C8 witness: a key pair with a concrete 32-byte scalar. -/
theorem private_key_is_raw_scalar_witness :
    (KeyPair.privateKey ⟨⟨List.replicate 32 5, List.replicate 33 0⟩⟩).bytes =
      List.replicate 32 (5 : Byte) ∧
    (KeyPair.privateKey ⟨⟨List.replicate 32 5, List.replicate 33 0⟩⟩).bytes.length = 32 :=
  private_key_is_raw_scalar ⟨⟨List.replicate 32 5, List.replicate 33 0⟩⟩ (by decide)

/-- C10: converting a SeedPhrase into seed bytes (the `From` impl) is
exactly `to_seed(None)`: the conversion always uses the empty
passphrase. -/
theorem seed_from_seed_phrase_eq_to_seed_none (E : Externals) (s : SeedPhrase) :
    seedFromSeedPhrase E s = SeedPhrase.to_seed E s none :=
  rfl

/-- A nonempty list passes the nonemptiness filter of `wsWords`. -/
theorem not_isEmpty_of_ne_nil {w : List Char} (h : w ≠ []) : (!w.isEmpty) = true := by
  cases w with
  | nil => exact absurd rfl h
  | cons c cs => rfl

/-- No word produced by `splitOnP` contains a separator character. -/
theorem mem_splitOnP_isWhitespace_eq_false (cs : List Char) :
    ∀ w ∈ cs.splitOnP Char.isWhitespace, ∀ c ∈ w, c.isWhitespace = false := by
  induction cs with
  | nil =>
    intro w hw c hc
    rw [List.splitOnP_nil] at hw
    rcases List.mem_singleton.mp hw with rfl
    exact absurd hc (List.not_mem_nil c)
  | cons a t ih =>
    intro w hw c hc
    rw [List.splitOnP_cons] at hw
    by_cases hpa : a.isWhitespace
    · rw [if_pos hpa] at hw
      rcases List.mem_cons.mp hw with rfl | h
      · exact absurd hc (List.not_mem_nil c)
      · exact ih w h c hc
    · rw [if_neg hpa] at hw
      rcases hsp : t.splitOnP Char.isWhitespace with _ | ⟨w0, ws0⟩
      · exact absurd hsp (List.splitOnP_ne_nil _ t)
      · rw [hsp] at hw
        simp only [List.modifyHead] at hw
        rcases List.mem_cons.mp hw with rfl | h
        · rcases List.mem_cons.mp hc with rfl | hcw
          · exact Bool.eq_false_iff.mpr hpa
          · exact ih w0 (by rw [hsp]; exact List.mem_cons_self w0 ws0) c hcw
        · exact ih w (by rw [hsp]; exact List.mem_cons_of_mem w0 h) c hc

/-- The words of any character list are nonempty and whitespace-free. -/
theorem wsWords_spec (cs : List Char) :
    ∀ w ∈ wsWords cs, w ≠ [] ∧ ∀ c ∈ w, c.isWhitespace = false := by
  intro w hw
  have h := List.mem_filter.mp hw
  refine ⟨?_, fun c hc => mem_splitOnP_isWhitespace_eq_false cs w h.1 c hc⟩
  intro hnil
  subst hnil
  exact absurd h.2 (by decide)

/-- Joining one word is that word. -/
theorem intercalate_singleton_word (w : List Char) : List.intercalate [' '] [w] = w := by
  simp [List.intercalate]

/-- Joining at least two words starts with the first word and one
space. -/
theorem intercalate_cons_cons_words (w w' : List Char) (ws : List (List Char)) :
    List.intercalate [' '] (w :: w' :: ws) =
      w ++ ' ' :: List.intercalate [' '] (w' :: ws) := by
  simp [List.intercalate, List.intersperse_cons_cons]

/-- Splitting on whitespace is a left inverse of joining nonempty,
whitespace-free words with single spaces. -/
theorem wsWords_intercalate (ws : List (List Char))
    (h : ∀ w ∈ ws, w ≠ [] ∧ ∀ c ∈ w, c.isWhitespace = false) :
    wsWords (List.intercalate [' '] ws) = ws := by
  induction ws with
  | nil => rfl
  | cons w tl ih =>
    have hw := h w (List.mem_cons_self w tl)
    have hwfree : ∀ x ∈ w, ¬x.isWhitespace = true := fun x hx => by
      rw [hw.2 x hx]
      exact Bool.false_ne_true
    cases tl with
    | nil =>
      rw [intercalate_singleton_word]
      unfold wsWords
      rw [List.splitOnP_eq_single Char.isWhitespace w hwfree]
      rw [List.filter_cons, if_pos (not_isEmpty_of_ne_nil hw.1)]
      rfl
    | cons w' tl' =>
      have htl : ∀ u ∈ w' :: tl', u ≠ [] ∧ ∀ c ∈ u, c.isWhitespace = false :=
        fun u hu => h u (List.mem_cons_of_mem w hu)
      rw [intercalate_cons_cons_words]
      unfold wsWords
      rw [List.splitOnP_first Char.isWhitespace w hwfree ' ' (by decide)
        (List.intercalate [' '] (w' :: tl'))]
      rw [List.filter_cons, if_pos (not_isEmpty_of_ne_nil hw.1)]
      have ht := ih htl
      unfold wsWords at ht
      rw [ht]

/-- Normalization is idempotent: a normalized phrase is a fixed point. -/
theorem normalizeWhitespace_idem (s : String) :
    normalizeWhitespace (normalizeWhitespace s) = normalizeWhitespace s := by
  unfold normalizeWhitespace
  exact congrArg String.mk
    (congrArg (List.intercalate [' ']) (wsWords_intercalate (wsWords s.data) (wsWords_spec s.data)))

/-- A fixed point of the normalizer has the word shape of the
§3 invariant. -/
theorem wordShaped_of_normalized {s : String} (h : normalizeWhitespace s = s) :
    WordShaped s :=
  ⟨wsWords s.data, wsWords_spec s.data, (congrArg String.data h).symm⟩

/-- Success characterization of `from_seed_phrase`: it returns `Ok`
exactly on inputs whose normalization passes the codec's validation, and
the result stores the normalized phrase. -/
theorem from_seed_phrase_ok_iff (E : Externals) (t : String) (s : SeedPhrase) :
    SeedPhrase.from_seed_phrase E t = .ok s ↔
      E.validPhrase (normalizeWhitespace t) = true ∧
        s = SeedPhrase.new_ed25519 ⟨normalizeWhitespace t⟩ := by
  simp only [SeedPhrase.from_seed_phrase, Externals.mnemonicFromPhrase]
  by_cases h : E.validPhrase (normalizeWhitespace t) = true
  · rw [if_pos h]
    simp only [h, true_and]
    exact ⟨fun hs => by injection hs with hs; exact hs.symm,
      fun hs => by rw [hs]⟩
  · rw [if_neg h]
    simp only [Bool.not_eq_true] at h
    simp [h]

/-- C5: `from_seed_phrase` first normalizes its input (collapsing every
whitespace run to one space and trimming the ends), succeeds iff the
normalized string is a valid checksummed phrase, returns exactly the
normalized string through `phrase()` on success, and fails with the
`InvalidPhrase` kind otherwise. -/
theorem from_seed_phrase_normalizes (E : Externals) (t : String) :
    ((∃ s, SeedPhrase.from_seed_phrase E t = .ok s) ↔
      E.validPhrase (normalizeWhitespace t) = true) ∧
    (∀ s, SeedPhrase.from_seed_phrase E t = .ok s →
      SeedPhrase.phrase s = normalizeWhitespace t) ∧
    (E.validPhrase (normalizeWhitespace t) = false →
      SeedPhrase.from_seed_phrase E t = .error .invalidPhrase) := by
  refine ⟨⟨?_, ?_⟩, ?_, ?_⟩
  · intro ⟨s, hs⟩
    exact ((from_seed_phrase_ok_iff E t s).mp hs).1
  · intro hv
    exact ⟨SeedPhrase.new_ed25519 ⟨normalizeWhitespace t⟩,
      (from_seed_phrase_ok_iff E t _).mpr ⟨hv, rfl⟩⟩
  · intro s hs
    rcases (from_seed_phrase_ok_iff E t s).mp hs with ⟨_, rfl⟩
    rfl
  · intro hv
    simp only [SeedPhrase.from_seed_phrase, Externals.mnemonicFromPhrase]
    rw [if_neg (by rw [hv]; exact Bool.false_ne_true)]

/-- C9: every SeedPhrase produced by `from_entropy`, `from_seed_phrase`,
`random` or the `FromStr` impl has a checksum-valid, single-spaced,
untrimmed-free phrase and the Ed25519 curve selector; the value is
immutable (the embedding is purely functional), so every later operation
observes the same invariant.  The codec contract supplies the hypotheses
for the phrases the codec itself produces. -/
theorem constructed_seed_phrase_invariant (E : Externals)
    (hent : ∀ b p, E.phraseFromEntropy b = some p →
      E.validPhrase p = true ∧ normalizeWhitespace p = p)
    (hrand : ∀ t, E.validPhrase (E.randomPhrase t) = true ∧
      normalizeWhitespace (E.randomPhrase t) = E.randomPhrase t)
    (s : SeedPhrase)
    (hcons : (∃ b, SeedPhrase.from_entropy E b = .ok s) ∨
      (∃ t, SeedPhrase.from_seed_phrase E t = .ok s) ∨
      (∃ m, SeedPhrase.random E m = .ok s) ∨
      (∃ t, SeedPhrase.from_str E t = .ok s)) :
    SeedPhraseInvariant E s := by
  rcases hcons with ⟨b, hb⟩ | ⟨t, ht⟩ | ⟨m, hm⟩ | ⟨t, ht⟩
  · unfold SeedPhrase.from_entropy at hb
    rcases hp : E.phraseFromEntropy b with _ | p
    · rw [hp] at hb
      exact Except.noConfusion hb
    · rw [hp] at hb
      injection hb with hb
      subst hb
      rcases hent b p hp with ⟨h1, h2⟩
      exact ⟨h1, wordShaped_of_normalized h2, rfl⟩
  · rcases (from_seed_phrase_ok_iff E t s).mp ht with ⟨h1, rfl⟩
    exact ⟨h1, wordShaped_of_normalized (normalizeWhitespace_idem t), rfl⟩
  · unfold SeedPhrase.random at hm
    injection hm with hm
    subst hm
    rcases hrand m with ⟨h1, h2⟩
    exact ⟨h1, wordShaped_of_normalized h2, rfl⟩
  · rcases (from_seed_phrase_ok_iff E t s).mp ht with ⟨h1, rfl⟩
    exact ⟨h1, wordShaped_of_normalized (normalizeWhitespace_idem t), rfl⟩

/-- C9 witness: a concrete collaborator implementation satisfying the
codec contract, and a phrase built by `from_seed_phrase` from an input
with irregular spacing. -/
theorem constructed_seed_phrase_invariant_witness :
    SeedPhraseInvariant extTest (SeedPhrase.new_ed25519 ⟨"abandon about"⟩) := by
  apply constructed_seed_phrase_invariant extTest
  · intro b p h
    simp only [extTest] at h
    by_cases hb : b.length = 16
    · rw [if_pos hb] at h
      injection h with h
      subst h
      exact ⟨by decide, by decide⟩
    · rw [if_neg hb] at h
      exact Option.noConfusion h
  · intro t
    have h1 : extTest.validPhrase "abandon about" = true := by decide
    have h2 : normalizeWhitespace "abandon about" = "abandon about" := by decide
    exact ⟨h1, h2⟩
  · exact Or.inr (Or.inl ⟨" abandon \t about ", rfl⟩)

end Sep5
